import Mathlib

/-! Verification of the sidebar navigation core of this documentation site:
the collapse-state store and toggle controller implemented in
src/components/sidebar/tree.tsx, and the tree builder described by the
specification. JavaScript objects are modelled as association lists over
string keys, and React state updates are modelled explicitly: during one
invocation of the toggle handler the `collapsed` binding is the render-time
snapshot of the store, and every `setCollapsed` call replaces the whole
store with its argument, so the store visible after the handler returns is
the argument of the last `setCollapsed` executed. -/

namespace Sidebar

/-- A value stored in the collapse-state map. The observed writers only ever
store booleans, but the toggle guard distinguishes a stored `null` from an
absent key, so `null` is representable. An absent key (JavaScript
`undefined`) is modelled as `none` at lookup time. -/
inductive JSVal where
  | bool (b : Bool)
  | null
deriving DecidableEq

/-- The collapse-state store: a JavaScript object keyed by node identifier,
modelled as an association list in insertion order. -/
abbrev Store := List (String × JSVal)

/-- Property access `collapsed[key]`: the stored value if the key is present,
`none` (JavaScript `undefined`) otherwise. -/
def lookup : Store → String → Option JSVal
  | [], _ => none
  | (k, v) :: rest, key => if k = key then some v else lookup rest key

/-- Object spread update `\x7b...s, key: v\x7d`: an existing key keeps its
position and receives the new value, a fresh key is appended at the end. -/
def setKey : Store → String → JSVal → Store
  | [], key, v => [(key, v)]
  | (k, w) :: rest, key, v =>
      if k = key then (k, v) :: rest else (k, w) :: setKey rest key v

/-- JavaScript boolean negation of a looked-up value:
`!undefined = true`, `!null = true`, `!false = true`, `!true = false`. -/
def jsNot : Option JSVal → Bool
  | some (JSVal.bool b) => !b
  | _ => true

/-- Body of the `parents.forEach` loop in the toggle handler of tree.tsx.
For a parent that is a truthy string and whose value in the stale snapshot
is not literally `null`, the loop calls
`setCollapsed(\x7b...collapsed, [parent]: false\x7d)`, replacing the whole
store by the stale snapshot with only that parent forced open; otherwise the
store is left as it was. -/
def forceStep (snapshot : Store) (current : Store) (parent : String) : Store :=
  if parent ≠ "" ∧ lookup snapshot parent ≠ some JSVal.null then
    setKey snapshot parent (JSVal.bool false)
  else current

/-- The `toggle` handler of src/components/sidebar/tree.tsx.
`collapsed` is the render-time snapshot of the store. The handler first runs
`setCollapsed(\x7b...collapsed, [label]: !toggleContent ? false : !collapsed[label]\x7d)`
and then, if `parents` was passed, one `forceStep` per parent; every
`setCollapsed` spreads the same stale snapshot, so the store after the
handler is the argument of the last `setCollapsed` executed. -/
def toggle (collapsed : Store) (label : String) (toggleContent : Bool)
    (parents : Option (List String)) : Store :=
  match parents with
  | none =>
      setKey collapsed label
        (JSVal.bool (if toggleContent then jsNot (lookup collapsed label) else false))
  | some ps =>
      ps.foldl (forceStep collapsed)
        (setKey collapsed label
          (JSVal.bool (if toggleContent then jsNot (lookup collapsed label) else false)))

/-- Modelled from the spec: `read` of the Collapse-State Store (spec §4.3);
the rendering component that performs reads is not under src/. A missing
entry reads as `true` (default collapsed); the active-chain refinement of
the default needs tree context that the toggle claims do not use, and a
stored `null` also reads as the default. -/
def read (s : Store) (identifier : String) : Bool :=
  match lookup s identifier with
  | some (JSVal.bool b) => b
  | _ => true

/-- Modelled from the spec: a decomposed path segment (spec §3); the Tree
Builder source (src/utils/treeData) is not under src/. -/
structure Segment where
  sortKey : Option Nat
  label : String
  raw : String
deriving DecidableEq

/-- Numeric value of a run of decimal digit characters. -/
def natOfDigits (cs : List Char) : Nat :=
  cs.foldl (fun n c => n * 10 + (c.toNat - 48)) 0

/-- Modelled from the spec: the Path Decomposer (spec §4.1) on one raw path
component; src/utils/treeData is not under src/. A leading run of digits
followed by the separator "-" yields the numeric sort key and the stripped
label; otherwise the sort key is absent and the label is the raw component. -/
def decompose (raw : String) : Segment :=
  match raw.data.takeWhile (fun c => c.isDigit),
      raw.data.dropWhile (fun c => c.isDigit) with
  | ds@(_ :: _), '-' :: tail =>
      { sortKey := some (natOfDigits ds), label := String.mk tail, raw := raw }
  | _, _ => { sortKey := none, label := raw, raw := raw }

/-- Modelled from the spec: a malformed page path (spec §4.1, §7) — zero
components, or a component whose label is empty after stripping. -/
def malformedPath (p : List String) : Bool :=
  p.isEmpty || p.any (fun r => (decompose r).label == "")

/-- Modelled from the spec: the sibling sort key (spec §3 and §4.2 step 3).
Segments with a numeric sort key precede those without (`⊤`), then the
numeric key, then the stripped label; the raw component is the final
tiebreaker, making the order linear so that sibling order is a function of
the sibling set alone. -/
def segKey (raw : String) : (WithTop Nat) ×ₗ (String ×ₗ String) :=
  toLex
    ((match (decompose raw).sortKey with
      | some n => (n : WithTop Nat)
      | none => ⊤),
      toLex ((decompose raw).label, raw))

/-- Sibling ordering relation on raw segment values. -/
def segR (a b : String) : Prop := segKey a ≤ segKey b

instance : DecidableRel segR :=
  fun a b => inferInstanceAs (Decidable (segKey a ≤ segKey b))

instance : IsTotal String segR := ⟨fun a b => le_total (segKey a) (segKey b)⟩

instance : IsTrans String segR := ⟨fun _ _ _ h1 h2 => le_trans h1 h2⟩

instance : IsAntisymm String segR :=
  ⟨fun _ _ h1 h2 => congrArg (fun z => (ofLex (ofLex z).2).2) (le_antisymm h1 h2)⟩

/-- Nonempty prefixes of a page path: one arena entry per ancestor-or-self. -/
def prefixList (p : List String) : List (List String) :=
  (List.range p.length).map (fun i => p.take (i + 1))

/-- Raw segment values of the children of node `pref` in the arena. -/
def childRaws (ar : List (List String)) (pref : List String) : List String :=
  ar.filterMap (fun q => if q.dropLast = pref then q.getLast? else none)

/-- Separator joining raw segments into a node identifier. -/
def sep : String := "/"

/-- Modelled from the spec: a navigation tree node (spec §3);
src/utils/treeData is not under src/. Display attributes are an opaque
pass-through payload, not part of the tree's shape, and are omitted. -/
inductive TreeNode where
  | node (identifier : String) (label : String) (path : Option String)
      (depth : Nat) (isActive : Bool) (children : List TreeNode)

/-- Modelled from the spec: finalization of the arena into a tree (spec §4.2
steps 2-4 in the arena formulation of §9): the node at `pref` carries the
fully qualified identifier, the stripped label of its last raw segment, a
path exactly when some page record has this full path, the active mark
exactly on the page node matching the current location, and children
obtained by sorting the distinct next raw segments and recursing. `fuel`
bounds the recursion depth. -/
def mkTree (ar : List (List String)) (pages : List (List String))
    (loc : List String) : Nat → List String → TreeNode
  | 0, pref =>
      TreeNode.node (String.intercalate sep pref)
        (decompose (pref.getLast?.getD "")).label
        (if pref ∈ pages then some (String.intercalate sep pref) else none)
        pref.length (decide (pref ∈ pages ∧ pref = loc)) []
  | fuel + 1, pref =>
      TreeNode.node (String.intercalate sep pref)
        (decompose (pref.getLast?.getD "")).label
        (if pref ∈ pages then some (String.intercalate sep pref) else none)
        pref.length (decide (pref ∈ pages ∧ pref = loc))
        ((List.insertionSort segR (childRaws ar pref).dedup).map
          (fun r => mkTree ar pages loc fuel (pref ++ [r])))

/-- Maximum path length among the records: the tree's depth bound. -/
def maxDepth (records : List (List String)) : Nat :=
  records.foldr (fun p m => max p.length m) 0

/-- Modelled from the spec: `build` of the Tree Builder (spec §4.2);
src/utils/treeData (calculateTreeData) is not under src/. A page record is
its path, the list of raw segment components (display attributes are opaque
pass-through); the whole build fails on any malformed path (spec §7);
otherwise every record's nonempty prefixes populate the arena, which is
finalized into the root node. -/
def build (records : List (List String)) (loc : List String) : Option TreeNode :=
  if records.any malformedPath then none
  else some (mkTree (records.flatMap prefixList) records loc (maxDepth records) [])

theorem lookup_setKey (s : Store) (k : String) (v : JSVal) (key : String) :
    lookup (setKey s k v) key = if k = key then some v else lookup s key := by
  induction s with
  | nil => rfl
  | cons kv rest ih =>
    obtain ⟨k0, v0⟩ := kv
    by_cases h0 : k0 = k
    · subst h0
      by_cases hk : k0 = key <;> simp [setKey, lookup, hk]
    · by_cases hk0 : k0 = key
      · subst hk0
        have hkne : k ≠ k0 := fun h => h0 h.symm
        simp [setKey, lookup, h0, hkne]
      · simp [setKey, lookup, h0, hk0, ih]

theorem setKey_lookup_self (s : Store) (k : String) (v : JSVal)
    (h : lookup s k = some v) : setKey s k v = s := by
  induction s with
  | nil => simp [lookup] at h
  | cons kv rest ih =>
    obtain ⟨k0, v0⟩ := kv
    by_cases h0 : k0 = k
    · subst h0
      simp [lookup] at h
      simp [setKey, h]
    · simp only [lookup, if_neg h0] at h
      simp [setKey, h0, ih h]

theorem stale_fold (snapshot : Store) (ps : List String) :
    ∀ acc : Store,
      ps.foldl (forceStep snapshot) acc = acc ∨
        ∃ p, (p ≠ "" ∧ lookup snapshot p ≠ some JSVal.null) ∧
          ps.foldl (forceStep snapshot) acc = setKey snapshot p (JSVal.bool false) := by
  induction ps with
  | nil => intro acc; exact Or.inl rfl
  | cons p ps ih =>
    intro acc
    simp only [List.foldl_cons]
    by_cases hq : p ≠ "" ∧ lookup snapshot p ≠ some JSVal.null
    · rcases ih (forceStep snapshot acc p) with h | ⟨r, hr, h⟩
      · refine Or.inr ⟨p, hq, ?_⟩
        rw [h, forceStep, if_pos hq]
      · exact Or.inr ⟨r, hr, h⟩
    · rcases ih (forceStep snapshot acc p) with h | ⟨r, hr, h⟩
      · refine Or.inl ?_
        rw [h, forceStep, if_neg hq]
      · exact Or.inr ⟨r, hr, h⟩

theorem lookup_toggle_unchanged (s : Store) (l : String) (tc : Bool)
    (ps : List String) (a : String) (hal : l ≠ a)
    (hq : ¬(a ≠ "" ∧ lookup s a ≠ some JSVal.null)) :
    lookup (toggle s l tc (some ps)) a = lookup s a := by
  simp only [toggle]
  rcases stale_fold s ps
      (setKey s l (JSVal.bool (if tc then jsNot (lookup s l) else false))) with
    h | ⟨p, hp, h⟩
  · rw [h, lookup_setKey, if_neg hal]
  · have hpa : p ≠ a := fun hcontr => hq (hcontr ▸ hp)
    rw [h, lookup_setKey, if_neg hpa]

theorem toggle_append_qualifying (s : Store) (l : String) (tc : Bool)
    (ps : List String) (p : String)
    (hp : p ≠ "" ∧ lookup s p ≠ some JSVal.null) :
    toggle s l tc (some (ps ++ [p])) = setKey s p (JSVal.bool false) := by
  simp only [toggle, List.foldl_append, List.foldl_cons, List.foldl_nil]
  rw [forceStep, if_pos hp]

theorem reveal_lookup (s : Store) (id : String) :
    lookup (toggle s id false none) id = some (JSVal.bool false) := by
  simp [toggle, lookup_setKey]

/-- C1: the toggle updates are NOT applied as one atomic store update. At
`collapsed = \x7b\x7d`, `toggle("a", true, ["p"])` should leave a store
reflecting both the flip of `"a"` (to collapsed) and the forcing of `"p"` to
expanded, but each `setCollapsed` spreads the stale pre-call snapshot, so the
last call wins: the final store is exactly `\x7bp: false\x7d` and the flip of
`"a"` is lost. -/
theorem toggle_lost_update :
    toggle [] "a" true (some ["p"]) = [("p", JSVal.bool false)] ∧
      lookup (toggle [] "a" true (some ["p"])) "a" = none := by
  exact ⟨rfl, rfl⟩

/-- C2 counterexample: with an empty store the ancestor `"p"` has no entry,
yet `toggle("a", true, ["p"])` creates the entry `p = false`: the guard
`collapsed[parent] !== null` does not skip absent entries, because
`undefined !== null` holds in JavaScript. -/
theorem toggle_forces_absent_ancestor :
    lookup ([] : Store) "p" = none ∧
      lookup (toggle [] "a" true (some ["p"])) "p" = some (JSVal.bool false) := by
  exact ⟨rfl, rfl⟩

/-- C2 amended: the ancestor-forcing guard only skips ancestors whose stored
value is literally `null` (besides falsy ancestor strings); an ancestor whose
value is `null` (and that differs from the toggled identifier) is left
untouched, while an ancestor with any other value — including no entry at
all — qualifies, and when it sits in last position its entry ends forced to
`false`. -/
theorem toggle_ancestor_guard (s : Store) (l : String) (tc : Bool)
    (ps : List String) (a p : String) :
    (l ≠ a → lookup s a = some JSVal.null →
        lookup (toggle s l tc (some ps)) a = lookup s a) ∧
      (p ≠ "" → lookup s p ≠ some JSVal.null →
        lookup (toggle s l tc (some (ps ++ [p]))) p = some (JSVal.bool false)) := by
  constructor
  · intro hal hnull
    exact lookup_toggle_unchanged s l tc ps a hal (by simp [hnull])
  · intro hp hnull
    rw [toggle_append_qualifying s l tc ps p ⟨hp, hnull⟩, lookup_setKey, if_pos rfl]

/-- Witness for the C2 amended theorem at a concrete store. -/
theorem toggle_ancestor_guard_witness :
    lookup (toggle [("x", JSVal.null)] "a" true (some ["x"])) "x" =
        lookup [("x", JSVal.null)] "x" ∧
      lookup (toggle [("x", JSVal.null)] "a" true (some (["x"] ++ ["q"]))) "q" =
        some (JSVal.bool false) :=
  ⟨(toggle_ancestor_guard [("x", JSVal.null)] "a" true ["x"] "x" "q").1
      (by decide) (by decide),
    (toggle_ancestor_guard [("x", JSVal.null)] "a" true ["x"] "x" "q").2
      (by decide) (by decide)⟩

/-- C3 counterexample: for an identifier with no entry, `read` defaults to
`true`, but toggling twice stores `true` then `false`, so the double toggle
does not return `read` to its original value. -/
theorem toggle_double_flip_fresh :
    read ([] : Store) "a" = true ∧
      read (toggle (toggle [] "a" true none) "a" true none) "a" = false := by
  exact ⟨rfl, rfl⟩

/-- C3 amended: for an identifier that already has a boolean entry, calling
`toggle(id, toggleContent=true)` twice in a row with no other writes in
between returns `store.read(id)` to the value it had before the first call;
for an absent entry the first flip negates the raw `undefined`, so the pair
of calls ends at `read = false` instead of the `true` default. -/
theorem toggle_double_flip_existing (s : Store) (id : String) (b : Bool)
    (h : lookup s id = some (JSVal.bool b)) :
    read (toggle (toggle s id true none) id true none) id = read s id := by
  have h1 : toggle s id true none = setKey s id (JSVal.bool (!b)) := by
    simp [toggle, h, jsNot]
  have h2 : lookup (toggle s id true none) id = some (JSVal.bool (!b)) := by
    rw [h1, lookup_setKey, if_pos rfl]
  have h3 : toggle (toggle s id true none) id true none =
      setKey (toggle s id true none) id (JSVal.bool b) := by
    generalize hT : toggle s id true none = t1 at h2 ⊢
    simp [toggle, h2, jsNot, Bool.not_not]
  rw [h3]
  simp [read, lookup_setKey, h]

/-- Witness for the C3 amended theorem at a concrete store. -/
theorem toggle_double_flip_existing_witness :
    lookup [("a", JSVal.bool true)] "a" = some (JSVal.bool true) ∧
      read (toggle (toggle [("a", JSVal.bool true)] "a" true none) "a" true none)
          "a" =
        read [("a", JSVal.bool true)] "a" :=
  ⟨by decide, toggle_double_flip_existing [("a", JSVal.bool true)] "a" true (by decide)⟩

/-- C4: `toggle(id, toggleContent=false)` forces the identifier's stored entry
to `false` (expanded) unconditionally, whatever its prior value or absence. -/
theorem toggle_reveal_forces_false (s : Store) (id : String) :
    lookup (toggle s id false none) id = some (JSVal.bool false) :=
  reveal_lookup s id

/-- C5 counterexample: with an ancestor list, reveal is not idempotent — it
does not even take effect. At store `\x7ba: true\x7d`, both calls
`toggle("a", false, ["p"])` end with the qualifying ancestor's setCollapsed
winning over the stale snapshot, so `read("a")` stays `true` after the first
and after the second call, never becoming `false`. -/
theorem toggle_reveal_not_idempotent_with_ancestors :
    read (toggle [("a", JSVal.bool true)] "a" false (some ["p"])) "a" = true ∧
      read (toggle (toggle [("a", JSVal.bool true)] "a" false (some ["p"]))
          "a" false (some ["p"])) "a" = true := by
  exact ⟨rfl, rfl⟩

/-- C5 amended: with no ancestor list passed, reveal is idempotent: after the
first `toggle(id, false)` the identifier reads `false`, and the second call
returns a store equal to the first call's store (so `read` is still `false`
and nothing changed). -/
theorem toggle_reveal_idempotent_no_ancestors (s : Store) (id : String) :
    read (toggle s id false none) id = false ∧
      toggle (toggle s id false none) id false none = toggle s id false none := by
  constructor
  · simp [read, reveal_lookup]
  · show toggle (toggle s id false none) id false none = toggle s id false none
    simp only [toggle]
    rw [if_neg Bool.false_ne_true]
    exact setKey_lookup_self _ id _ (reveal_lookup s id)

/-- C6 counterexample: an unknown identifier does NOT always get a fresh
entry. At the empty store, `toggle("a", true, ["p"])` leaves no entry for
`"a"`: the qualifying ancestor's `setCollapsed` spreads the stale empty
snapshot and overwrites the store that contained the fresh entry. -/
theorem toggle_no_fresh_entry_with_ancestor :
    lookup ([] : Store) "a" = none ∧
      lookup (toggle [] "a" true (some ["p"])) "a" = none := by
  exact ⟨rfl, rfl⟩

/-- C6 amended: `toggle` is a total function — every call completes and just
returns the new store — and an unknown identifier gets a fresh entry whenever
the call passes no ancestor list (value `toggleContent` itself: `!undefined`
is `true` for a flip, `false` for a reveal). -/
theorem toggle_fresh_entry_no_ancestors (s : Store) (id : String) (tc : Bool)
    (h : lookup s id = none) :
    lookup (toggle s id tc none) id = some (JSVal.bool tc) := by
  cases tc
  · simp [toggle, lookup_setKey]
  · simp [toggle, lookup_setKey, h, jsNot]

/-- Witness for the C6 amended theorem at a concrete store. -/
theorem toggle_fresh_entry_no_ancestors_witness :
    lookup ([] : Store) "a" = none ∧
      lookup (toggle [] "a" true none) "a" = some (JSVal.bool true) :=
  ⟨by decide, toggle_fresh_entry_no_ancestors [] "a" true (by decide)⟩

/-- C7: the store's key set grows monotonically across a toggle call — every
identifier with an entry before the call still has an entry after it, since
the surviving `setCollapsed` argument is the pre-call snapshot plus one
binding. -/
theorem toggle_monotone_entries (s : Store) (l : String) (tc : Bool)
    (ps : Option (List String)) (k : String) (h : lookup s k ≠ none) :
    lookup (toggle s l tc ps) k ≠ none := by
  have hset : ∀ a v, lookup (setKey s a v) k ≠ none := by
    intro a v
    rw [lookup_setKey]
    split
    · exact fun hc => Option.noConfusion hc
    · exact h
  cases ps with
  | none => exact hset l _
  | some ps =>
    simp only [toggle]
    rcases stale_fold s ps
        (setKey s l (JSVal.bool (if tc then jsNot (lookup s l) else false))) with
      hf | ⟨p, _, hf⟩
    · rw [hf]; exact hset l _
    · rw [hf]; exact hset p _

/-- Witness for C7 at a concrete store. -/
theorem toggle_monotone_entries_witness :
    lookup [("a", JSVal.bool false)] "a" ≠ none ∧
      lookup (toggle [("a", JSVal.bool false)] "b" true (some ["p"])) "a" ≠ none :=
  ⟨by decide,
    toggle_monotone_entries [("a", JSVal.bool false)] "b" true (some ["p"]) "a"
      (by decide)⟩

/-- C9: for an identifier with no entry, `toggle(id, true)` stores `true`
(collapsed): the code negates the raw absent value (`!undefined = true`)
rather than flipping the `read` default. -/
theorem toggle_fresh_flip_stores_true (s : Store) (id : String)
    (h : lookup s id = none) :
    lookup (toggle s id true none) id = some (JSVal.bool true) := by
  simp [toggle, lookup_setKey, h, jsNot]

/-- Witness for C9 at the empty store. -/
theorem toggle_fresh_flip_stores_true_witness :
    lookup ([] : Store) "b" = none ∧
      lookup (toggle [] "b" true none) "b" = some (JSVal.bool true) :=
  ⟨by decide, toggle_fresh_flip_stores_true [] "b" (by decide)⟩

/-- C10 counterexample: when the falsy ancestor coincides with the toggled
identifier, an entry for it IS created — `toggle("", true, [""])` on the
empty store creates the entry `"" = true` through the label update, so the
store does not remain without entries for falsy ancestor identifiers. -/
theorem toggle_falsy_ancestor_entry_created :
    lookup ([] : Store) "" = none ∧
      lookup (toggle [] "" true (some [""])) "" = some (JSVal.bool true) := by
  exact ⟨rfl, rfl⟩

/-- C10 amended: a falsy (empty-string) ancestor identifier that differs from
the toggled identifier is skipped by the ancestor-forcing step: its store
value (including absence) is unchanged by the call. -/
theorem toggle_skips_falsy_ancestors (s : Store) (l : String) (tc : Bool)
    (ps : List String) (a : String) (ha : a ∈ ps) (hfalsy : a = "")
    (hal : l ≠ a) :
    lookup (toggle s l tc (some ps)) a = lookup s a := by
  subst hfalsy
  exact lookup_toggle_unchanged s l tc ps "" hal (by simp)

theorem getLast?_concat_self {q : List String} {x : String}
    (h : q.getLast? = some x) : q = q.dropLast ++ [x] := by
  induction q using List.reverseRecOn with
  | nil => simp at h
  | append_singleton ys y _ =>
    rw [List.getLast?_concat] at h
    obtain rfl : y = x := Option.some.inj h
    rw [List.dropLast_concat]

theorem mem_childRaws {ar : List (List String)} {pref : List String} {x : String} :
    x ∈ childRaws ar pref ↔ (pref ++ [x]) ∈ ar := by
  simp only [childRaws, List.mem_filterMap]
  constructor
  · rintro ⟨q, hq, hfq⟩
    by_cases hd : q.dropLast = pref
    · rw [if_pos hd] at hfq
      have hqe := getLast?_concat_self hfq
      rw [hd] at hqe
      rwa [hqe] at hq
    · rw [if_neg hd] at hfq
      exact absurd hfq (by simp)
  · intro hmem
    refine ⟨pref ++ [x], hmem, ?_⟩
    rw [if_pos List.dropLast_concat, List.getLast?_concat]

theorem mkTree_ext (loc : List String) (fuel : Nat) :
    ∀ ar1 ar2 pages1 pages2 : List (List String),
      (∀ x, x ∈ ar1 ↔ x ∈ ar2) → (∀ x, x ∈ pages1 ↔ x ∈ pages2) →
        ∀ pref, mkTree ar1 pages1 loc fuel pref = mkTree ar2 pages2 loc fuel pref := by
  induction fuel with
  | zero =>
    intro ar1 ar2 p1 p2 _ hp pref
    simp only [mkTree]
    rw [if_congr (hp pref) rfl rfl, decide_eq_decide.mpr (and_congr_left' (hp pref))]
  | succ n ih =>
    intro ar1 ar2 p1 p2 har hp pref
    have hchild : (childRaws ar1 pref).dedup.Perm (childRaws ar2 pref).dedup := by
      refine (List.perm_ext_iff_of_nodup (List.nodup_dedup _) (List.nodup_dedup _)).2 ?_
      intro a
      simp only [List.mem_dedup, mem_childRaws]
      exact har (pref ++ [a])
    have hsort : List.insertionSort segR (childRaws ar1 pref).dedup =
        List.insertionSort segR (childRaws ar2 pref).dedup :=
      List.eq_of_perm_of_sorted
        (((List.perm_insertionSort segR _).trans hchild).trans
          (List.perm_insertionSort segR _).symm)
        (List.sorted_insertionSort segR _) (List.sorted_insertionSort segR _)
    have hfun : (fun r => mkTree ar1 p1 loc n (pref ++ [r])) =
        (fun r => mkTree ar2 p2 loc n (pref ++ [r])) :=
      funext fun r => ih ar1 ar2 p1 p2 har hp (pref ++ [r])
    simp only [mkTree]
    rw [if_congr (hp pref) rfl rfl, decide_eq_decide.mpr (and_congr_left' (hp pref)),
      hsort, hfun]

theorem any_perm {α : Type} {l1 l2 : List α} (h : l1.Perm l2) (f : α → Bool) :
    l1.any f = l2.any f := by
  induction h with
  | nil => rfl
  | cons x _ ih => simp only [List.any_cons]; rw [ih]
  | swap x y l => simp only [List.any_cons]; rw [Bool.or_left_comm]
  | trans _ _ ih1 ih2 => rw [ih1, ih2]

theorem maxDepth_perm {l1 l2 : List (List String)} (h : l1.Perm l2) :
    maxDepth l1 = maxDepth l2 := by
  induction h with
  | nil => rfl
  | cons x _ ih =>
    simp only [maxDepth, List.foldr_cons] at ih ⊢
    rw [ih]
  | swap x y l =>
    simp only [maxDepth, List.foldr_cons]
    exact Nat.max_left_comm _ _ _
  | trans _ _ ih1 ih2 => rw [ih1, ih2]

/-- C8: `build` is invariant under permutation of its input records — for any
two record sequences that are permutations of each other and the same
current location, the resulting trees are equal, so shape and child ordering
agree at every node. Malformedness, the arena and the active node are
membership properties of the input, and sibling order is a sort by the
linear `segKey` order of the deduplicated sibling set. -/
theorem build_perm_invariant (p q : List (List String)) (loc : List String)
    (h : p.Perm q) : build p loc = build q loc := by
  simp only [build]
  rw [any_perm h malformedPath, maxDepth_perm h]
  by_cases hm : q.any malformedPath = true
  · rw [if_pos hm, if_pos hm]
  · rw [if_neg hm, if_neg hm]
    exact congrArg some
      (mkTree_ext loc (maxDepth q) (p.flatMap prefixList) (q.flatMap prefixList) p q
        (fun x => (h.flatMap_right prefixList).mem_iff) (fun x => h.mem_iff) [])

/-- Witness for C8 on concrete permuted inputs. -/
theorem build_perm_invariant_witness :
    ([["2-a", "1-b"], ["3-c"]] : List (List String)).Perm [["3-c"], ["2-a", "1-b"]] ∧
      build [["2-a", "1-b"], ["3-c"]] ["3-c"] =
        build [["3-c"], ["2-a", "1-b"]] ["3-c"] :=
  ⟨by decide,
    build_perm_invariant [["2-a", "1-b"], ["3-c"]] [["3-c"], ["2-a", "1-b"]] ["3-c"]
      (by decide)⟩

/-- Witness for the C10 amended theorem at the empty store. -/
theorem toggle_skips_falsy_ancestors_witness :
    "" ∈ [""] ∧ lookup (toggle [] "a" true (some [""])) "" = lookup ([] : Store) "" :=
  ⟨by decide,
    toggle_skips_falsy_ancestors [] "a" true [""] "" (by decide) (by decide)
      (by decide)⟩

end Sidebar
